import Mathlib

/-!
Shallow embedding of the goget tool (package main), the import-path to
clone-URL resolver, the go-import discovery parser, the go.mod scanner, the
parallel batch runner and the clone skip check, together with proofs of the
specification claims.

External effects (HTTP requests, the filesystem, the git subprocess) are
modelled as explicit parameters; pure string manipulation follows the Go
standard-library semantics of the functions the source uses
(strings.Split, strings.Join, strings.Fields, strings.TrimSpace,
strings.HasPrefix, strings.TrimPrefix, strings.CutPrefix, strings.Index).
-/

/-- Model of Go strings.Split(s, "/") over the character list: splits around
every occurrence of the separator; the empty string yields one empty field. -/
def splitSlashList : List Char → List (List Char)
  | [] => [[]]
  | c :: cs =>
    if c = '/' then [] :: splitSlashList cs
    else
      match splitSlashList cs with
      | [] => [[c]]
      | r :: rs => (c :: r) :: rs

/-- Go strings.Split(importPath, "/"). -/
def stringsSplitSlash (s : String) : List String :=
  (splitSlashList s.data).map (fun l => String.mk l)

/-- Go strings.Join(elems, "/"). -/
def stringsJoinSlash : List String → String
  | [] => ""
  | [x] => x
  | x :: y :: xs => x ++ "/" ++ stringsJoinSlash (y :: xs)

/-- Go strings.HasPrefix(s, pre). -/
def goStartsWith (s p : String) : Bool :=
  p.data.isPrefixOf s.data

/-- Go strings.CutPrefix(s, p): some remainder when p is a prefix, else none. -/
def goCutPre (s p : String) : Option String :=
  if goStartsWith s p then some (String.mk (s.data.drop p.data.length)) else none

/-- Go strings.TrimPrefix(s, p). -/
def goTrimPre (s p : String) : String :=
  if goStartsWith s p then String.mk (s.data.drop p.data.length) else s

/-- The part of s up to (excluding) the first '/', the whole of s when it has
none: Go `if idx := strings.Index(repo, "/"); idx != -1 { repo = repo[:idx] }`. -/
def firstSegment (s : String) : String :=
  String.mk (s.data.takeWhile (fun c => c ≠ '/'))

/-- Helper for Go strings.Fields: accumulates the current word (reversed). -/
def fieldsAux : List Char → List Char → List String
  | [], [] => []
  | [], acc => [String.mk acc.reverse]
  | c :: cs, acc =>
    if c.isWhitespace then
      match acc with
      | [] => fieldsAux cs []
      | _ :: _ => String.mk acc.reverse :: fieldsAux cs []
    else fieldsAux cs (c :: acc)

/-- Go strings.Fields(s): the maximal runs of non-whitespace characters. -/
def stringsFields (s : String) : List String :=
  fieldsAux s.data []

/-- Go strings.TrimSpace(s). -/
def goTrimSpace (s : String) : String :=
  String.mk (((s.data.dropWhile Char.isWhitespace).reverse.dropWhile
    Char.isWhitespace).reverse)

-- The program embedding --------------------------------------------------------

/-- The well-known Git hosting services where repositories follow the
user/repo pattern (the commonHosts slice of isCommonGitHost). -/
def commonHosts : List String := ["github.com", "gitlab.com", "bitbucket.org"]

/-- isCommonGitHost returns true for well-known Git hosting services where
repositories follow the user/repo pattern. -/
def isCommonGitHost (domain : String) : Bool :=
  commonHosts.contains domain

/-- The well-known Go-specific domains with special handling
(the wellKnownGoDomains slice of shouldUseDiscovery). -/
def wellKnownGoDomains : List String :=
  ["golang.org", "google.golang.org", "go.opentelemetry.io"]

/-- shouldUseDiscovery determines if HTTP discovery should be tried for
this package path: not for common Git hosts, not for well-known Go domains. -/
def shouldUseDiscovery (importPath : String) : Bool :=
  match stringsSplitSlash importPath with
  | [] => false
  | domain :: _ =>
    if isCommonGitHost domain then false
    else if wellKnownGoDomains.any
        (fun d => domain == d || goStartsWith importPath (d ++ "/")) then false
    else true

/-- The outcome of the HTTP discovery performed by discoverGoImport, seen by
the resolver: either a (vcs, repoURL) pair or an error message. -/
inductive Discovery where
  | found (vcs repoURL : String)
  | failed (msg : String)
deriving DecidableEq

/-- The vendor-rule and generic heuristics of getRepositoryURLWithClient
(the code after the discovery block): vendor-specific redirect rules checked
by prefix, then the common-host user/repo truncation, then the verbatim
full-path fallback, then the bare-domain form. -/
def heuristicRepoURL (importPath : String) (useHTTPS : Bool) : String :=
  match goCutPre importPath "golang.org/x/" with
  | some repo => "https://go.googlesource.com/" ++ firstSegment repo
  | none =>
    match goCutPre importPath "google.golang.org/" with
    | some repo => "https://github.com/googleapis/" ++ firstSegment repo
    | none =>
      match goCutPre importPath "go.opentelemetry.io/" with
      | some repo => "https://github.com/open-telemetry/" ++ firstSegment repo
      | none =>
        match stringsSplitSlash importPath with
        | [] => ""
        | domain :: rest =>
          if isCommonGitHost domain && decide (rest.length + 1 ≥ 3) then
            let repo := stringsJoinSlash (rest.take 2)
            if useHTTPS then "https://" ++ domain ++ "/" ++ repo ++ ".git"
            else "git@" ++ domain ++ ":" ++ repo ++ ".git"
          else if decide (rest.length + 1 > 1) then
            let repo := stringsJoinSlash rest
            if useHTTPS then "https://" ++ domain ++ "/" ++ repo ++ ".git"
            else "git@" ++ domain ++ ":" ++ repo ++ ".git"
          else
            if useHTTPS then "https://" ++ domain ++ ".git"
            else "git@" ++ domain ++ ".git"

/-- getRepositoryURLWithClient: tries HTTP discovery for custom domains (its
outcome is the disc parameter); a discovered git repository URL is returned
directly, any other outcome (non-git vcs, discovery failure) falls back, with
a warning, to the heuristics; well-known domains go straight to heuristics. -/
def getRepositoryURLWithClient (importPath : String) (useHTTPS : Bool)
    (disc : Discovery) : String :=
  if shouldUseDiscovery importPath then
    match disc with
    | .found vcs repoURL =>
      if vcs == "git" then repoURL
      else heuristicRepoURL importPath useHTTPS
    | .failed _ => heuristicRepoURL importPath useHTTPS
  else heuristicRepoURL importPath useHTTPS

/-- validateImportPath checks if the import path is valid: the first
slash-separated segment must contain a dot. -/
def validateImportPath (importPath : String) : Option String :=
  match stringsSplitSlash importPath with
  | [] => some ("no package to retrieve: " ++ importPath)
  | domain :: _ =>
    if (domain.data.contains '.') = false then
      some ("first part of package path should be a domain name, got " ++ importPath)
    else none

-- Discovery client -------------------------------------------------------------

/-- One attribute of an HTML tag, as produced by the tokenizer. -/
structure HtmlAttr where
  key : String
  val : String
deriving DecidableEq

/-- One token of the tokenized HTML response body. Tokens other than start
tags and self-closing tags (text, end tags, comments, doctype) fall through
the switch in parseGoImportMeta, so they are collapsed into one case. -/
inductive HtmlToken where
  | startTag (data : String) (attrs : List HtmlAttr)
  | selfClosingTag (data : String) (attrs : List HtmlAttr)
  | otherToken
deriving DecidableEq

/-- The attribute-reading loop of parseGoImportMeta: the last "name" and
"content" attribute values win, missing ones stay empty. -/
def metaNameContent (attrs : List HtmlAttr) : String × String :=
  attrs.foldl
    (fun nc a =>
      ((if a.key == "name" then a.val else nc.1),
       (if a.key == "content" then a.val else nc.2)))
    ("", "")

/-- parseGoImportMeta extracts the go-import meta tag from the token stream
of the HTML body. The termErr parameter is the terminal error of the tokenizer:
none models io.EOF (body exhausted), some e models a read error. -/
def parseGoImportMeta (toks : List HtmlToken) (termErr : Option String)
    (importPath : String) : Except String (String × String) :=
  match toks with
  | [] =>
    match termErr with
    | none => .error "no go-import meta tag found"
    | some e => .error e
  | t :: rest =>
    match t with
    | .otherToken => parseGoImportMeta rest termErr importPath
    | .startTag tagData attrs | .selfClosingTag tagData attrs =>
      if tagData != "meta" then parseGoImportMeta rest termErr importPath
      else
        let nc := metaNameContent attrs
        if nc.1 != "go-import" then parseGoImportMeta rest termErr importPath
        else
          match stringsFields nc.2 with
          | [p, vcsType, repoURL] =>
            if goStartsWith importPath p then .ok (vcsType, repoURL)
            else parseGoImportMeta rest termErr importPath
          | _ => parseGoImportMeta rest termErr importPath

/-- Specification-side reading of one token (from the words of the claim): a meta
tag, start or self-closing, whose name attribute is go-import and whose
content splits into exactly three whitespace-separated fields with the first
a prefix of the queried import path, denotes the directive (vcs, repoURL);
any other token denotes nothing. -/
def directiveOfToken (importPath : String) : HtmlToken → Option (String × String)
  | .startTag tagData attrs | .selfClosingTag tagData attrs =>
    if tagData = "meta" then
      let nc := metaNameContent attrs
      if nc.1 = "go-import" then
        match stringsFields nc.2 with
        | [p, vcsType, repoURL] =>
          if goStartsWith importPath p then some (vcsType, repoURL) else none
        | _ => none
      else none
    else none
  | .otherToken => none

/-- The HTTP GET outcome seen by discoverGoImport: a transport failure, or a
response with a status code and a tokenized body. -/
inductive HttpResult where
  | failure (msg : String)
  | response (status : Nat) (bodyToks : List HtmlToken) (bodyErr : Option String)

/-- discoverGoImport fetches https://importPath?go-get=1 (the HTTP effect is
the resp parameter) and parses the go-import meta tag from the body. -/
def discoverGoImport (importPath : String) (resp : HttpResult) :
    Except String (String × String) :=
  let url := "https://" ++ importPath ++ "?go-get=1"
  match resp with
  | .failure msg => .error ("failed to fetch " ++ url ++ ": " ++ msg)
  | .response status toks bodyErr =>
    if status != 200 then
      .error ("got status " ++ toString status ++ " from " ++ url)
    else parseGoImportMeta toks bodyErr importPath

-- go.mod scanner ---------------------------------------------------------------

/-- The line loop of parseGoMod: trims each line, tracks the require-block
state, extracts the first field of every dependency line having at least two
whitespace-separated fields. -/
def parseGoModLines : List String → Bool → List String
  | [], _ => []
  | raw :: rest, inRequireBlock =>
    let line := goTrimSpace raw
    if goStartsWith line "require (" then parseGoModLines rest true
    else if inRequireBlock && goStartsWith line ")" then parseGoModLines rest false
    else
      let depLine :=
        if inRequireBlock then line
        else if goStartsWith line "require " then goTrimPre line "require "
        else ""
      if depLine = "" then parseGoModLines rest inRequireBlock
      else
        match stringsFields depLine with
        | f :: _ :: _ => f :: parseGoModLines rest inRequireBlock
        | _ => parseGoModLines rest inRequireBlock

/-- Specification-side reading of the scanner state machine: the candidate
dependency lines, in file order — inside a require block every non-empty
trimmed line, outside it every line starting with the single-line require
keyword, with that keyword stripped. -/
def requireCandidates : List String → Bool → List String
  | [], _ => []
  | raw :: rest, inRequireBlock =>
    let line := goTrimSpace raw
    if goStartsWith line "require (" then requireCandidates rest true
    else if inRequireBlock && goStartsWith line ")" then requireCandidates rest false
    else if inRequireBlock then
      if line = "" then requireCandidates rest inRequireBlock
      else line :: requireCandidates rest inRequireBlock
    else if goStartsWith line "require " then
      let d := goTrimPre line "require "
      if d = "" then requireCandidates rest inRequireBlock
      else d :: requireCandidates rest inRequireBlock
    else requireCandidates rest inRequireBlock

/-- parseGoMod parses a go.mod file and returns all dependency paths. The
file read is the contents parameter: an error models a failed open or a
scanner read error, a list of lines models a successful read. -/
def parseGoMod (contents : Except String (List String)) :
    Except String (List String) :=
  match contents with
  | .error e => .error ("failed to open go.mod file: " ++ e)
  | .ok lines => .ok (parseGoModLines lines false)

-- Git command construction and execution ----------------------------------------

/-- Config holds the configuration for a goget operation. -/
structure Config where
  gopath : String
  workingDir : String
  importPath : String
  hasEllipsis : Bool
deriving DecidableEq

/-- GitCommand represents a git command to execute. -/
structure GitCommand where
  url : String
  targetPath : String
  args : List String
deriving DecidableEq

/-- Model of Go filepath.Join: empty elements are dropped and the rest joined
with the separator (path cleaning of dot segments is not modelled; none of
the proved properties depend on it). -/
def goFilepathJoin (elems : List String) : String :=
  stringsJoinSlash (elems.filter (fun e => e ≠ ""))

/-- The final step of buildGitCommand: reject an empty git URL, otherwise
assemble the clone command. -/
def finishGitCommand (importPath gitURL checkoutPath : String) :
    Except String GitCommand :=
  if gitURL = "" then
    .error ("could not determine git URL for " ++ importPath)
  else
    .ok { url := gitURL, targetPath := checkoutPath,
          args := ["clone", "--quiet", gitURL, checkoutPath] }

/-- buildGitCommand creates the git command from the config. The relResult
parameter is the outcome of filepath.Abs(workingDir) followed by
filepath.Rel(gopath, absWD), the two filesystem-dependent steps of the
relative-path branch. -/
def buildGitCommand (config : Config) (useHTTPS : Bool) (disc : Discovery)
    (relResult : Except String String) : Except String GitCommand :=
  if goStartsWith config.importPath "." then
    if config.workingDir = "" then
      .error "working directory required for relative paths"
    else
      match relResult with
      | .error e =>
        -- the Go code embeds the two quoted paths in this message
        .error ("could not construct relationship between gopath and wd: " ++ e)
      | .ok rel =>
        if goStartsWith rel "src/" = false then
          .error ("working directory should be contained inside $GOPATH/src, got " ++ rel)
        else
          let pkgstart := goTrimPre rel "src/"
          let fullpkg := goFilepathJoin [pkgstart, config.importPath]
          finishGitCommand config.importPath
            (getRepositoryURLWithClient fullpkg useHTTPS disc) config.importPath
  else
    finishGitCommand config.importPath
      (getRepositoryURLWithClient config.importPath useHTTPS disc)
      (goFilepathJoin [config.gopath, "src", config.importPath])

/-- executeGitCommand runs the git command: skips when a go.mod file exists
at the target path, else skips when a .git directory exists there, else runs
git clone. The filesystem and the subprocess are the fileExists and cloneRun
parameters (cloneRun: none models a clone that exits 0, some e a failure).
Returns (skipped, error). -/
def executeGitCommand (fileExists : String → Bool) (cloneRun : Option String)
    (cmd : GitCommand) : Bool × Option String :=
  if fileExists (goFilepathJoin [cmd.targetPath, "go.mod"]) then (true, none)
  else if fileExists (goFilepathJoin [cmd.targetPath, ".git"]) then (true, none)
  else (false, cloneRun)

-- Parallel batch runner ---------------------------------------------------------

/-- DependencyResult holds the result of fetching a single dependency. -/
structure DependencyResult where
  importPath : String
  error : Option String
  skipped : Bool
deriving DecidableEq

/-- The body of one worker of runGoGetParallel: runs the fetch pipeline for
one dependency (its outcome is given by fetchOne, which models runGoGet) and
forms the result recorded at the index owned by the worker. -/
def fetchResult (fetchOne : String → Bool × Option String) (dep : String) :
    DependencyResult :=
  let r := fetchOne dep
  { importPath := dep, error := r.2, skipped := r.1 }

/-- The workers of runGoGetParallel, executed in an arbitrary completion
order: each index in the order list is one worker writing its result into
its own slot of the results list. Indices out of range write nothing. -/
def runWorkers (deps : List String) (fetchOne : String → Bool × Option String) :
    List Nat → List DependencyResult → List DependencyResult
  | [], results => results
  | i :: order, results =>
    match deps[i]? with
    | some dep => runWorkers deps fetchOne order (results.set i (fetchResult fetchOne dep))
    | none => runWorkers deps fetchOne order results

/-- runGoGetParallel fetches multiple dependencies in parallel: a result
slice with one pre-assigned slot per dependency, filled by workers whose
completion order is arbitrary (the order parameter). The initial slots model
the zero values of make([]DependencyResult, len(deps)). -/
def runGoGetParallel (deps : List String)
    (fetchOne : String → Bool × Option String) (order : List Nat) :
    List DependencyResult :=
  runWorkers deps fetchOne order
    (List.replicate deps.length { importPath := "", error := none, skipped := false })

-- Basic facts about the string models ---------------------------------------

theorem splitSlashList_ne_nil (l : List Char) : splitSlashList l ≠ [] := by
  induction l with
  | nil => simp [splitSlashList]
  | cons c cs ih =>
    simp only [splitSlashList]
    split
    · simp
    · cases h : splitSlashList cs with
      | nil => simp
      | cons r rs => simp

theorem stringsSplitSlash_ne_nil (s : String) : stringsSplitSlash s ≠ [] := by
  simp [stringsSplitSlash, splitSlashList_ne_nil]

theorem splitSlashList_head (l : List Char) :
    (splitSlashList l).head? = some (l.takeWhile (fun c => c ≠ '/')) := by
  induction l with
  | nil => simp [splitSlashList, List.takeWhile]
  | cons c cs ih =>
    simp only [splitSlashList, List.takeWhile]
    by_cases hc : c = '/'
    · simp [hc]
    · simp only [hc, if_neg hc]
      cases h : splitSlashList cs with
      | nil => exact absurd h (splitSlashList_ne_nil cs)
      | cons r rs =>
        rw [h] at ih
        simp at ih
        simp [hc, ih]

theorem isPrefixOf_self_append (l m : List Char) : l.isPrefixOf (l ++ m) = true := by
  induction l with
  | nil => simp [List.isPrefixOf]
  | cons c cs ih => simp [List.isPrefixOf, ih]

theorem isPrefixOf_exists {l m : List Char} (h : l.isPrefixOf m = true) :
    ∃ t, m = l ++ t := by
  induction l generalizing m with
  | nil => exact ⟨m, rfl⟩
  | cons c cs ih =>
    cases m with
    | nil => simp [List.isPrefixOf] at h
    | cons d ds =>
      simp [List.isPrefixOf] at h
      obtain ⟨t, ht⟩ := h.2
      exact ⟨t, by simp [h.1, ← ht]⟩

theorem isPrefixOf_of_append {l m t : List Char} (h : m = l ++ t) :
    l.isPrefixOf m = true := by
  subst h
  induction l with
  | nil => simp [List.isPrefixOf]
  | cons c cs ih => simp [List.isPrefixOf, ih]

theorem takeWhile_of_no_slash (p : List Char) (rest : List Char)
    (hp : ∀ c ∈ p, c ≠ '/') :
    (p ++ '/' :: rest).takeWhile (fun c => c ≠ '/') = p := by
  induction p with
  | nil => simp [List.takeWhile]
  | cons c cs ih =>
    have hc : c ≠ '/' := hp c (by simp)
    have hcb : (fun c => decide (c ≠ '/')) c = true := by simp [hc]
    rw [List.cons_append, List.takeWhile_cons, if_pos hcb,
      ih (fun d hd => hp d (by simp [hd]))]

theorem splitSlashList_append (p rest : List Char) (hp : ∀ c ∈ p, c ≠ '/') :
    splitSlashList (p ++ '/' :: rest) = p :: splitSlashList rest := by
  induction p with
  | nil =>
    show splitSlashList ('/' :: rest) = [] :: splitSlashList rest
    rw [splitSlashList, if_pos rfl]
  | cons c cs ih =>
    have hc : c ≠ '/' := hp c (by simp)
    have ih2 := ih (fun d hd => hp d (by simp [hd]))
    show splitSlashList (c :: (cs ++ '/' :: rest)) = (c :: cs) :: splitSlashList rest
    rw [splitSlashList, if_neg hc, ih2]

theorem joinSlash_splitSlashList (l : List Char) :
    (stringsJoinSlash ((splitSlashList l).map (fun c => String.mk c))).data = l := by
  induction l with
  | nil => simp [splitSlashList, stringsJoinSlash]
  | cons c cs ih =>
    simp only [splitSlashList]
    by_cases hc : c = '/'
    · simp only [hc, if_pos rfl, List.map_cons]
      cases h : splitSlashList cs with
      | nil => exact absurd h (splitSlashList_ne_nil cs)
      | cons r rs =>
        rw [h] at ih
        simp only [List.map_cons] at ih ⊢
        simp only [stringsJoinSlash]
        simpa [String.data_append] using ih
    · simp only [if_neg hc]
      cases h : splitSlashList cs with
      | nil => exact absurd h (splitSlashList_ne_nil cs)
      | cons r rs =>
        rw [h] at ih
        simp only [List.map_cons] at ih ⊢
        cases rs with
        | nil =>
          simp only [List.map_nil, stringsJoinSlash] at ih ⊢
          show c :: r = c :: cs
          rw [show r = cs from ih]
        | cons r2 rs2 =>
          simp only [List.map_cons, stringsJoinSlash, String.data_append] at ih ⊢
          simp only [List.cons_append]
          rw [ih]

theorem joinSlash_stringsSplitSlash (s : String) :
    stringsJoinSlash (stringsSplitSlash s) = s := by
  apply String.ext
  exact joinSlash_splitSlashList s.data


-- Helper lemmas -----------------------------------------------------------------

theorem isPrefixOf_append_of_le (l1 l2 m : List Char) (h : l1.length ≤ l2.length) :
    l1.isPrefixOf (l2 ++ m) = l1.isPrefixOf l2 := by
  induction l1 generalizing l2 with
  | nil => simp [List.isPrefixOf]
  | cons c cs ih =>
    cases l2 with
    | nil => simp at h
    | cons d ds =>
      simp only [List.cons_append, List.isPrefixOf, List.append_eq]
      rw [ih ds (by simpa using h)]

theorem goCutPre_append (p s : String) : goCutPre (p ++ s) p = some s := by
  unfold goCutPre goStartsWith
  rw [String.data_append,
    isPrefixOf_of_append (l := p.data) (t := s.data) rfl, if_pos rfl]
  rw [List.drop_left]

theorem goStartsWith_false_of_ne {p q : String} (s : String)
    (hlen : p.data.length ≤ q.data.length)
    (hne : p.data.isPrefixOf q.data = false) :
    goStartsWith (q ++ s) p = false := by
  unfold goStartsWith
  rw [String.data_append, isPrefixOf_append_of_le _ _ _ hlen, hne]

theorem goCutPre_none_of_ne {p q : String} (s : String)
    (hlen : p.data.length ≤ q.data.length)
    (hne : p.data.isPrefixOf q.data = false) :
    goCutPre (q ++ s) p = none := by
  unfold goCutPre
  rw [goStartsWith_false_of_ne s hlen hne]
  simp

/-- Any import path lying under a well-known Go domain is excluded from
HTTP discovery. -/
theorem shouldUseDiscovery_wellKnown (ip d : String)
    (hd : d ∈ wellKnownGoDomains) (hns : ∀ c ∈ d.data, c ≠ '/')
    (hsplit : ∃ t, ip.data = d.data ++ '/' :: t) :
    shouldUseDiscovery ip = false := by
  obtain ⟨t, ht⟩ := hsplit
  have hsp : splitSlashList ip.data = d.data :: splitSlashList t := by
    rw [ht]; exact splitSlashList_append _ _ hns
  have hstart : goStartsWith ip (d ++ "/") = true := by
    unfold goStartsWith
    refine isPrefixOf_of_append (t := t) ?_
    rw [ht, String.data_append]
    simp [show ("/" : String).data = ['/'] from rfl]
  have hssp : stringsSplitSlash ip = d :: (splitSlashList t).map
      (fun l => String.mk l) := by simp [stringsSplitSlash, hsp]
  unfold shouldUseDiscovery
  rw [hssp]
  by_cases hC : isCommonGitHost d
  · simp [hC]
  · have hany : wellKnownGoDomains.any
        (fun x => d == x || goStartsWith ip (x ++ "/")) = true := by
      rw [List.any_eq_true]
      exact ⟨d, hd, by rw [hstart]; simp⟩
    simp [hC, hany]

/-- When discovery is skipped or does not yield a git repository URL, the
resolver is the heuristic URL. -/
theorem resolver_eq_heuristic_of_skip (ip : String) (https : Bool)
    (disc : Discovery) (h : shouldUseDiscovery ip = false) :
    getRepositoryURLWithClient ip https disc = heuristicRepoURL ip https := by
  unfold getRepositoryURLWithClient
  rw [h]
  simp

theorem susd_golangorg (s : String) :
    shouldUseDiscovery ("golang.org/x/" ++ s) = false := by
  refine shouldUseDiscovery_wellKnown _ "golang.org" (by decide) (by decide)
    ⟨"x/".data ++ s.data, ?_⟩
  rw [String.data_append,
    show "golang.org/x/".data = "golang.org".data ++ '/' :: "x/".data from by decide]
  simp

theorem susd_googlegolangorg (s : String) :
    shouldUseDiscovery ("google.golang.org/" ++ s) = false := by
  refine shouldUseDiscovery_wellKnown _ "google.golang.org" (by decide) (by decide)
    ⟨s.data, ?_⟩
  rw [String.data_append,
    show "google.golang.org/".data = "google.golang.org".data ++ ['/'] from by decide]
  simp

theorem susd_opentelemetry (s : String) :
    shouldUseDiscovery ("go.opentelemetry.io/" ++ s) = false := by
  refine shouldUseDiscovery_wellKnown _ "go.opentelemetry.io" (by decide) (by decide)
    ⟨s.data, ?_⟩
  rw [String.data_append,
    show "go.opentelemetry.io/".data = "go.opentelemetry.io".data ++ ['/'] from by decide]
  simp

theorem heuristic_golangorg (s : String) (https : Bool) :
    heuristicRepoURL ("golang.org/x/" ++ s) https =
      "https://go.googlesource.com/" ++ firstSegment s := by
  unfold heuristicRepoURL
  rw [goCutPre_append]

theorem heuristic_googlegolangorg (s : String) (https : Bool) :
    heuristicRepoURL ("google.golang.org/" ++ s) https =
      "https://github.com/googleapis/" ++ firstSegment s := by
  unfold heuristicRepoURL
  rw [goCutPre_none_of_ne s (by decide) (by decide), goCutPre_append]

theorem heuristic_opentelemetry (s : String) (https : Bool) :
    heuristicRepoURL ("go.opentelemetry.io/" ++ s) https =
      "https://github.com/open-telemetry/" ++ firstSegment s := by
  unfold heuristicRepoURL
  rw [goCutPre_none_of_ne s (by decide) (by decide),
    goCutPre_none_of_ne s (by decide) (by decide), goCutPre_append]

/-- The first string of the split always equals the characters of the import
path up to its first slash. -/
theorem split_head_eq_takeWhile (ip host : String) (l : List String)
    (h : stringsSplitSlash ip = host :: l) :
    host.data = ip.data.takeWhile (fun c => c ≠ '/') := by
  have hh := splitSlashList_head ip.data
  unfold stringsSplitSlash at h
  cases hc : splitSlashList ip.data with
  | nil => exact absurd hc (splitSlashList_ne_nil _)
  | cons r rs =>
    rw [hc] at h hh
    simp only [List.head?] at hh
    simp only [List.map_cons, List.cons.injEq] at h
    rw [← h.1]
    exact Option.some.inj hh

/-- A vendor domain that differs from the first segment of the import path
cannot have its vendor pattern cut from that path. -/
theorem goCutPre_none_of_host_ne {ip p d host : String} (k : List Char)
    (hp : p.data = d.data ++ '/' :: k) (hns : ∀ c ∈ d.data, c ≠ '/')
    (hfd : host.data = ip.data.takeWhile (fun c => c ≠ '/'))
    (hne : host ≠ d) :
    goCutPre ip p = none := by
  unfold goCutPre
  cases hsw : goStartsWith ip p with
  | false => simp
  | true =>
    exfalso
    unfold goStartsWith at hsw
    obtain ⟨t, ht⟩ := isPrefixOf_exists hsw
    rw [hp, List.append_assoc] at ht
    have : ip.data.takeWhile (fun c => c ≠ '/') = d.data := by
      rw [ht]
      exact takeWhile_of_no_slash _ _ hns
    exact hne (String.ext (by rw [hfd, this]))

theorem commonHost_cases {host : String} (h : isCommonGitHost host = true) :
    host = "github.com" ∨ host = "gitlab.com" ∨ host = "bitbucket.org" := by
  unfold isCommonGitHost commonHosts at h
  simpa using h

/-- For a common-host import path, none of the vendor prefix rules fires. -/
theorem vendor_cuts_none_of_common {ip host : String} (l : List String)
    (hsplit : stringsSplitSlash ip = host :: l)
    (hhost : isCommonGitHost host = true) :
    goCutPre ip "golang.org/x/" = none ∧
    goCutPre ip "google.golang.org/" = none ∧
    goCutPre ip "go.opentelemetry.io/" = none := by
  have hfd := split_head_eq_takeWhile ip host l hsplit
  have hcases := commonHost_cases hhost
  refine ⟨?_, ?_, ?_⟩
  · refine goCutPre_none_of_host_ne (d := "golang.org") "x/".data (by decide)
      (by decide) hfd ?_
    rcases hcases with h | h | h <;> (rw [h]; decide)
  · refine goCutPre_none_of_host_ne (d := "google.golang.org") [] (by decide)
      (by decide) hfd ?_
    rcases hcases with h | h | h <;> (rw [h]; decide)
  · refine goCutPre_none_of_host_ne (d := "go.opentelemetry.io") [] (by decide)
      (by decide) hfd ?_
    rcases hcases with h | h | h <;> (rw [h]; decide)

-- Claims ------------------------------------------------------------------------

/-- Claim C1: for every import path whose first slash-separated segment is
one of the enumerated owner/repo-convention hosts (github.com, gitlab.com,
bitbucket.org) and that has at least 3 segments, resolving with the
secure-shell transport yields exactly git@host:seg1/seg2.git and resolving
with the HTTPS transport yields exactly https://host/seg1/seg2.git; all
segments past the first two after the domain are discarded. -/
theorem claim_c1_common_host_truncation (ip host r1 r2 : String)
    (rest : List String) (disc : Discovery)
    (hsplit : stringsSplitSlash ip = host :: r1 :: r2 :: rest)
    (hhost : isCommonGitHost host = true) :
    getRepositoryURLWithClient ip false disc =
      "git@" ++ host ++ ":" ++ r1 ++ "/" ++ r2 ++ ".git" ∧
    getRepositoryURLWithClient ip true disc =
      "https://" ++ host ++ "/" ++ r1 ++ "/" ++ r2 ++ ".git" := by
  have hsusd : shouldUseDiscovery ip = false := by
    unfold shouldUseDiscovery
    rw [hsplit]
    simp [hhost]
  obtain ⟨hv1, hv2, hv3⟩ := vendor_cuts_none_of_common _ hsplit hhost
  have hheur : ∀ https, heuristicRepoURL ip https =
      (if https then "https://" ++ host ++ "/" ++ (r1 ++ "/" ++ r2) ++ ".git"
       else "git@" ++ host ++ ":" ++ (r1 ++ "/" ++ r2) ++ ".git") := by
    intro https
    unfold heuristicRepoURL
    rw [hv1, hv2, hv3, hsplit]
    have hcond : (isCommonGitHost host &&
        decide ((r1 :: r2 :: rest).length + 1 ≥ 3)) = true := by
      rw [hhost]
      simp
    simp only [hcond, if_pos, List.take, stringsJoinSlash]
  constructor <;>
    (rw [resolver_eq_heuristic_of_skip _ _ _ hsusd, hheur];
      simp [String.append_assoc])

/-- Witness for claim C1 at github.com/user/repo/pkg/sub. -/
theorem claim_c1_witness :
    getRepositoryURLWithClient "github.com/user/repo/pkg/sub" false (.failed "x") =
      "git@github.com:user/repo.git" ∧
    getRepositoryURLWithClient "github.com/user/repo/pkg/sub" true (.failed "x") =
      "https://github.com/user/repo.git" := by
  have h := claim_c1_common_host_truncation "github.com/user/repo/pkg/sub"
    "github.com" "user" "repo" ["pkg", "sub"] (.failed "x") (by decide) (by decide)
  exact ⟨by rw [h.1]; decide, by rw [h.2]; decide⟩

/-- Claim C5: a failed discovery attempt, or one returning a non-git
version-control system, does not fail resolution: the resolver returns the
same URL the heuristics produce; a discovery succeeding with vcs git (on a
path eligible for discovery) returns the discovered repository URL directly. -/
theorem claim_c5_discovery_fallback :
    (∀ (ip : String) (https : Bool) (msg : String),
      getRepositoryURLWithClient ip https (.failed msg) =
        heuristicRepoURL ip https) ∧
    (∀ (ip : String) (https : Bool) (vcs url : String), vcs ≠ "git" →
      getRepositoryURLWithClient ip https (.found vcs url) =
        heuristicRepoURL ip https) ∧
    (∀ (ip : String) (https : Bool) (url : String),
      shouldUseDiscovery ip = true →
      getRepositoryURLWithClient ip https (.found "git" url) = url) := by
  refine ⟨?_, ?_, ?_⟩
  · intro ip https msg
    unfold getRepositoryURLWithClient
    cases shouldUseDiscovery ip <;> simp
  · intro ip https vcs url hvcs
    unfold getRepositoryURLWithClient
    cases shouldUseDiscovery ip <;> simp [hvcs]
  · intro ip https url hd
    unfold getRepositoryURLWithClient
    rw [hd]
    simp

/-- A discovery outcome that is not a git directive always sends the
resolver to the heuristics. -/
theorem resolver_eq_heuristic_of_nogit (ip : String) (https : Bool)
    (disc : Discovery) (hdisc : ∀ url, disc ≠ .found "git" url) :
    getRepositoryURLWithClient ip https disc = heuristicRepoURL ip https := by
  unfold getRepositoryURLWithClient
  cases disc with
  | failed m => cases shouldUseDiscovery ip <;> simp
  | found vcs url =>
    have hvcs : vcs ≠ "git" := fun h => hdisc url (by rw [h])
    cases shouldUseDiscovery ip <;> simp [hvcs]

theorem splitSlashList_no_slash (l : List Char) (h : ∀ c ∈ l, c ≠ '/') :
    splitSlashList l = [l] := by
  induction l with
  | nil => rfl
  | cons c cs ih =>
    have hc : c ≠ '/' := h c (by simp)
    rw [splitSlashList, if_neg hc, ih (fun d hd => h d (by simp [hd]))]

/-- Witness for claim C5 at example.com/foo. -/
theorem claim_c5_witness :
    getRepositoryURLWithClient "example.com/foo" false
        (.found "hg" "https://h.example/r") =
      heuristicRepoURL "example.com/foo" false ∧
    getRepositoryURLWithClient "example.com/foo" false
        (.found "git" "https://h.example/r") = "https://h.example/r" :=
  ⟨claim_c5_discovery_fallback.2.1 "example.com/foo" false "hg"
      "https://h.example/r" (by decide),
   claim_c5_discovery_fallback.2.2 "example.com/foo" false
      "https://h.example/r" (by decide)⟩

/-- Claim C3: for an import path whose domain is not a known
owner/repo-convention host and that matches no vendor prefix, when discovery
does not yield a git repository, the entire residual path after the domain
appears verbatim in the output URL (git@domain:rest.git or
https://domain/rest.git), and a bare-domain URL is produced when there are
no segments after the domain. -/
theorem claim_c3_unknown_domain_verbatim :
    (∀ (domain residue : String) (disc : Discovery),
      (∀ c ∈ domain.data, c ≠ '/') →
      isCommonGitHost domain = false →
      goCutPre (domain ++ "/" ++ residue) "golang.org/x/" = none →
      goCutPre (domain ++ "/" ++ residue) "google.golang.org/" = none →
      goCutPre (domain ++ "/" ++ residue) "go.opentelemetry.io/" = none →
      (∀ url, disc ≠ .found "git" url) →
      getRepositoryURLWithClient (domain ++ "/" ++ residue) false disc =
        "git@" ++ domain ++ ":" ++ residue ++ ".git" ∧
      getRepositoryURLWithClient (domain ++ "/" ++ residue) true disc =
        "https://" ++ domain ++ "/" ++ residue ++ ".git") ∧
    (∀ (domain : String) (disc : Discovery),
      (∀ c ∈ domain.data, c ≠ '/') →
      isCommonGitHost domain = false →
      goCutPre domain "golang.org/x/" = none →
      goCutPre domain "google.golang.org/" = none →
      goCutPre domain "go.opentelemetry.io/" = none →
      (∀ url, disc ≠ .found "git" url) →
      getRepositoryURLWithClient domain false disc = "git@" ++ domain ++ ".git" ∧
      getRepositoryURLWithClient domain true disc =
        "https://" ++ domain ++ ".git") := by
  constructor
  · intro domain residue disc hns hhost hv1 hv2 hv3 hdisc
    have hdata : (domain ++ "/" ++ residue).data =
        domain.data ++ '/' :: residue.data := by
      rw [String.data_append, String.data_append]
      simp [show ("/" : String).data = ['/'] from rfl]
    have hsplit : stringsSplitSlash (domain ++ "/" ++ residue) =
        domain :: stringsSplitSlash residue := by
      unfold stringsSplitSlash
      rw [hdata, splitSlashList_append _ _ hns]
      rfl
    have hrest : stringsSplitSlash residue ≠ [] := stringsSplitSlash_ne_nil residue
    have hheur : ∀ https, heuristicRepoURL (domain ++ "/" ++ residue) https =
        (if https then "https://" ++ domain ++ "/" ++ residue ++ ".git"
         else "git@" ++ domain ++ ":" ++ residue ++ ".git") := by
      intro https
      unfold heuristicRepoURL
      rw [hv1, hv2, hv3, hsplit]
      cases hr : stringsSplitSlash residue with
      | nil => exact absurd hr hrest
      | cons q qs =>
        have hjoin : stringsJoinSlash (q :: qs) = residue := by
          rw [← hr]; exact joinSlash_stringsSplitSlash residue
        simp only [hhost, Bool.false_and, Bool.false_eq_true, if_false,
          List.length_cons]
        rw [if_pos (by simp), hjoin]
    exact ⟨by rw [resolver_eq_heuristic_of_nogit _ _ _ hdisc, hheur]; rfl,
           by rw [resolver_eq_heuristic_of_nogit _ _ _ hdisc, hheur]; rfl⟩
  · intro domain disc hns hhost hv1 hv2 hv3 hdisc
    have hsplit : stringsSplitSlash domain = [domain] := by
      unfold stringsSplitSlash
      rw [splitSlashList_no_slash _ hns]
      rfl
    have hheur : ∀ https, heuristicRepoURL domain https =
        (if https then "https://" ++ domain ++ ".git"
         else "git@" ++ domain ++ ".git") := by
      intro https
      unfold heuristicRepoURL
      rw [hv1, hv2, hv3, hsplit]
      simp [hhost]
    exact ⟨by rw [resolver_eq_heuristic_of_nogit _ _ _ hdisc, hheur]; rfl,
           by rw [resolver_eq_heuristic_of_nogit _ _ _ hdisc, hheur]; rfl⟩

/-- One step of the scanning loop of parseGoImportMeta: a token is either
the first matching directive, returned, or it is skipped — whether it is a
non-meta tag, a tag with a malformed content, a tag with a non-matching
path, or any other token kind — and the scan continues. -/
theorem parseGoImportMeta_cons (t : HtmlToken) (rest : List HtmlToken)
    (termErr : Option String) (ip : String) :
    parseGoImportMeta (t :: rest) termErr ip =
      match directiveOfToken ip t with
      | some d => .ok d
      | none => parseGoImportMeta rest termErr ip := by
  cases t with
  | otherToken => rfl
  | startTag tagData attrs =>
    by_cases hm : tagData = "meta"
    · subst hm
      by_cases hn : (metaNameContent attrs).1 = "go-import"
      · rcases hf : stringsFields (metaNameContent attrs).2 with
          _ | ⟨p, _ | ⟨v, _ | ⟨u, _ | ⟨w, ws⟩⟩⟩⟩
        · simp [parseGoImportMeta, directiveOfToken, hn, hf]
        · simp [parseGoImportMeta, directiveOfToken, hn, hf]
        · simp [parseGoImportMeta, directiveOfToken, hn, hf]
        · cases hsw : goStartsWith ip p <;>
            simp [parseGoImportMeta, directiveOfToken, hn, hf, hsw]
        · simp [parseGoImportMeta, directiveOfToken, hn, hf]
      · simp [parseGoImportMeta, directiveOfToken, hn]
    · simp [parseGoImportMeta, directiveOfToken, hm]
  | selfClosingTag tagData attrs =>
    by_cases hm : tagData = "meta"
    · subst hm
      by_cases hn : (metaNameContent attrs).1 = "go-import"
      · rcases hf : stringsFields (metaNameContent attrs).2 with
          _ | ⟨p, _ | ⟨v, _ | ⟨u, _ | ⟨w, ws⟩⟩⟩⟩
        · simp [parseGoImportMeta, directiveOfToken, hn, hf]
        · simp [parseGoImportMeta, directiveOfToken, hn, hf]
        · simp [parseGoImportMeta, directiveOfToken, hn, hf]
        · cases hsw : goStartsWith ip p <;>
            simp [parseGoImportMeta, directiveOfToken, hn, hf, hsw]
        · simp [parseGoImportMeta, directiveOfToken, hn, hf]
      · simp [parseGoImportMeta, directiveOfToken, hn]
    · simp [parseGoImportMeta, directiveOfToken, hm]

theorem head_append_of_data {a : String} (b : String) {c : Char} {l : List Char}
    (h : a.data = c :: l) : (a ++ b).data.head? = some c := by
  rw [String.data_append, h]
  rfl

theorem ne_of_head_ne {s t : String} {c d : Char} (hc : s.data.head? = some c)
    (hd : t.data.head? = some d) (hne : c ≠ d) : s ≠ t := by
  intro h
  rw [h, hd] at hc
  exact hne (Option.some.inj hc.symm)

/-- Claim C4: discovery-tag parsing returns the (vcs, repo-url) of the first
meta tag named go-import whose content splits into exactly three
whitespace-separated fields and whose first field is a prefix of the
queried path; non-matching or malformed tags are skipped without aborting the
scan; reaching end of input with no matching tag fails with the explicit
"no go-import meta tag found" error, which is distinct from the transport
failures of discoverGoImport. -/
theorem claim_c4_go_import_parsing :
    (∀ (toks : List HtmlToken) (ip : String),
      parseGoImportMeta toks none ip =
        match toks.findSome? (directiveOfToken ip) with
        | some d => .ok d
        | none => .error "no go-import meta tag found") ∧
    (∀ (ip msg : String),
      discoverGoImport ip (.failure msg) ≠
        .error "no go-import meta tag found") ∧
    (∀ (ip : String) (st : Nat) (toks : List HtmlToken) (be : Option String),
      st ≠ 200 →
      discoverGoImport ip (.response st toks be) ≠
        .error "no go-import meta tag found") := by
  refine ⟨?_, ?_, ?_⟩
  · intro toks ip
    induction toks with
    | nil => rfl
    | cons t rest ih =>
      rw [parseGoImportMeta_cons, List.findSome?_cons]
      cases directiveOfToken ip t with
      | some d => rfl
      | none => exact ih
  · intro ip msg h
    have := Except.error.inj h
    exact ne_of_head_ne
      (head_append_of_data _ (show "failed to fetch ".data = 'f' ::
        "ailed to fetch ".data from by decide))
      (show ("no go-import meta tag found" : String).data.head? = some 'n'
        from by decide) (by decide)
      (by simpa [String.append_assoc] using this)
  · intro ip st toks be hst h
    simp only [discoverGoImport] at h
    rw [if_pos (show (st != 200) = true by simpa using hst)] at h
    have := Except.error.inj h
    exact ne_of_head_ne
      (head_append_of_data _ (show "got status ".data = 'g' ::
        "ot status ".data from by decide))
      (show ("no go-import meta tag found" : String).data.head? = some 'n'
        from by decide) (by decide)
      (by simpa [String.append_assoc] using this)

/-- Witness for claim C4: a matching second tag after a malformed first tag,
and a non-OK status producing a transport error. -/
theorem claim_c4_witness :
    parseGoImportMeta
        [HtmlToken.startTag "meta"
          [⟨"name", "go-import"⟩, ⟨"content", "example.com/pkg git"⟩],
         HtmlToken.startTag "meta"
          [⟨"name", "go-import"⟩,
           ⟨"content", "example.com/pkg git https://example.com/repo.git"⟩]]
        none "example.com/pkg/sub" =
      .ok ("git", "https://example.com/repo.git") ∧
    discoverGoImport "example.com/pkg" (.response 404 [] none) ≠
      .error "no go-import meta tag found" := by
  refine ⟨?_, claim_c4_go_import_parsing.2.2 "example.com/pkg" 404 [] none
    (by decide)⟩
  rw [claim_c4_go_import_parsing.1]
  rfl

/-- Claim C6: scanning a manifest with both single-line and block require
declarations returns, in file order, the first whitespace-separated field of
every candidate line having at least two fields; the scan fails only on an
underlying read failure, and a manifest with zero dependencies yields the
empty sequence successfully. -/
theorem claim_c6_gomod_scan :
    (∀ (lines : List String) (b : Bool),
      parseGoModLines lines b =
        (requireCandidates lines b).filterMap (fun d =>
          match stringsFields d with
          | f :: _ :: _ => some f
          | _ => none)) ∧
    (∀ lines, parseGoMod (.ok lines) = .ok (parseGoModLines lines false)) ∧
    parseGoMod (.ok []) = .ok [] ∧
    parseGoMod (.ok ["module m", "", "require golang.org/x/sync v0.1.0",
        "require (", "\tgolang.org/x/net v0.2.0",
        "\tgithub.com/pkg/errors v0.9.1 // indirect", ")",
        "require github.com/google/uuid v1.0.0"]) =
      .ok ["golang.org/x/sync", "golang.org/x/net", "github.com/pkg/errors",
        "github.com/google/uuid"] := by
  refine ⟨?_, fun lines => rfl, rfl, by rfl⟩
  intro lines b
  induction lines generalizing b with
  | nil => rfl
  | cons raw rest ih =>
    by_cases h1 : goStartsWith (goTrimSpace raw) "require (" = true
    · simp [parseGoModLines, requireCandidates, h1, ih]
    · cases b with
      | true =>
        by_cases h2 : goStartsWith (goTrimSpace raw) ")" = true
        · simp [parseGoModLines, requireCandidates, h1, h2, ih]
        · by_cases h3 : goTrimSpace raw = ""
          · simp [parseGoModLines, requireCandidates, h1, h2, h3, ih,
              show goStartsWith "" "require (" = false from by decide,
              show goStartsWith "" ")" = false from by decide]
          · rcases hf : stringsFields (goTrimSpace raw) with _ | ⟨f, _ | ⟨g, gs⟩⟩ <;>
              simp [parseGoModLines, requireCandidates, h1, h2, h3, hf, ih]
      | false =>
        by_cases h2 : goStartsWith (goTrimSpace raw) "require " = true
        · by_cases h3 : goTrimPre (goTrimSpace raw) "require " = ""
          · simp [parseGoModLines, requireCandidates, h1, h2, h3, ih]
          · rcases hf : stringsFields (goTrimPre (goTrimSpace raw) "require ") with
              _ | ⟨f, _ | ⟨g, gs⟩⟩ <;>
              simp [parseGoModLines, requireCandidates, h1, h2, h3, hf, ih]
        · simp [parseGoModLines, requireCandidates, h1, h2, ih]

theorem runWorkers_length (deps : List String)
    (fetchOne : String → Bool × Option String) (order : List Nat)
    (res : List DependencyResult) :
    (runWorkers deps fetchOne order res).length = res.length := by
  induction order generalizing res with
  | nil => rfl
  | cons j rest ih =>
    cases hj : deps[j]? with
    | some dep =>
      simp only [runWorkers, hj]
      rw [ih, List.length_set]
    | none =>
      simp only [runWorkers, hj]
      exact ih res

theorem runWorkers_get_of_not_mem (deps : List String)
    (fetchOne : String → Bool × Option String) (order : List Nat)
    (res : List DependencyResult) (i : Nat) (hi : i ∉ order) :
    (runWorkers deps fetchOne order res)[i]? = res[i]? := by
  induction order generalizing res with
  | nil => rfl
  | cons j rest ih =>
    have hij : i ≠ j := fun h => hi (by simp [h])
    have hirest : i ∉ rest := fun h => hi (by simp [h])
    cases hj : deps[j]? with
    | some dep =>
      simp only [runWorkers, hj]
      rw [ih _ hirest, List.getElem?_set_ne hij.symm]
    | none =>
      simp only [runWorkers, hj]
      exact ih res hirest

theorem runWorkers_get_of_mem (deps : List String)
    (fetchOne : String → Bool × Option String) (order : List Nat)
    (res : List DependencyResult) (i : Nat) (dep : String)
    (hmem : i ∈ order) (hlen : res.length = deps.length)
    (hdep : deps[i]? = some dep) :
    (runWorkers deps fetchOne order res)[i]? =
      some (fetchResult fetchOne dep) := by
  induction order generalizing res with
  | nil => simp at hmem
  | cons j rest ih =>
    by_cases hirest : i ∈ rest
    · cases hj : deps[j]? with
      | some dj =>
        simp only [runWorkers, hj]
        exact ih _ hirest (by rw [List.length_set, hlen])
      | none =>
        simp only [runWorkers, hj]
        exact ih res hirest hlen
    · have hij : i = j := by
        rcases List.mem_cons.mp hmem with h | h
        · exact h
        · exact absurd h hirest
      subst hij
      simp only [runWorkers, hdep]
      rw [runWorkers_get_of_not_mem _ _ _ _ _ hirest]
      have hlt : i < res.length := by
        rw [hlen]
        exact (List.getElem?_eq_some.mp hdep).1
      exact List.getElem?_set_eq_of_lt _ hlt

/-- Claim C7: the batch runner returns exactly one outcome per input path,
and for every completion order of the workers the outcome at index i is the
outcome of fetching input path i; an individual fetch failure is recorded
only in the outcome of that item and aborts nothing. -/
theorem claim_c7_batch_runner (deps : List String)
    (fetchOne : String → Bool × Option String) (order : List Nat)
    (hcover : ∀ i, i < deps.length → i ∈ order) :
    (runGoGetParallel deps fetchOne order).length = deps.length ∧
    (∀ (i : Nat) (dep : String), deps[i]? = some dep →
      (runGoGetParallel deps fetchOne order)[i]? =
        some (fetchResult fetchOne dep)) := by
  constructor
  · unfold runGoGetParallel
    rw [runWorkers_length, List.length_replicate]
  · intro i dep hdep
    unfold runGoGetParallel
    exact runWorkers_get_of_mem _ _ _ _ i dep
      (hcover i (List.getElem?_eq_some.mp hdep).1) (List.length_replicate _ _) hdep

/-- Witness for claim C7: two dependencies, the first failing, completed in
reverse order; both outcomes are present, in input order. -/
theorem claim_c7_witness :
    (runGoGetParallel ["a.example/x", "b.example/y"]
      (fun d => (false, if d = "a.example/x" then some "boom" else none))
      [1, 0]).length = 2 ∧
    (runGoGetParallel ["a.example/x", "b.example/y"]
      (fun d => (false, if d = "a.example/x" then some "boom" else none))
      [1, 0])[0]? =
      some { importPath := "a.example/x", error := some "boom",
             skipped := false } ∧
    (runGoGetParallel ["a.example/x", "b.example/y"]
      (fun d => (false, if d = "a.example/x" then some "boom" else none))
      [1, 0])[1]? =
      some { importPath := "b.example/y", error := none, skipped := false } := by
  have h := claim_c7_batch_runner ["a.example/x", "b.example/y"]
    (fun d => (false, if d = "a.example/x" then some "boom" else none))
    [1, 0] (by decide)
  refine ⟨h.1, ?_, ?_⟩
  · have := h.2 0 "a.example/x" rfl
    rw [this]
    rfl
  · have := h.2 1 "b.example/y" rfl
    rw [this]
    rfl

/-- Claim C8: the skip check proceeds in a fixed order: an existing go.mod
directly at the destination skips the fetch with no error and no clone; else
an existing .git directory there skips likewise; only when neither marker
exists is the external clone process run, and its outcome returned. -/
theorem claim_c8_skip_check (fileExists : String → Bool) (cmd : GitCommand) :
    (fileExists (goFilepathJoin [cmd.targetPath, "go.mod"]) = true →
      ∀ cloneRun, executeGitCommand fileExists cloneRun cmd = (true, none)) ∧
    (fileExists (goFilepathJoin [cmd.targetPath, "go.mod"]) = false →
      fileExists (goFilepathJoin [cmd.targetPath, ".git"]) = true →
      ∀ cloneRun, executeGitCommand fileExists cloneRun cmd = (true, none)) ∧
    (fileExists (goFilepathJoin [cmd.targetPath, "go.mod"]) = false →
      fileExists (goFilepathJoin [cmd.targetPath, ".git"]) = false →
      ∀ cloneRun, executeGitCommand fileExists cloneRun cmd = (false, cloneRun)) := by
  refine ⟨fun h1 cloneRun => ?_, fun h1 h2 cloneRun => ?_, fun h1 h2 cloneRun => ?_⟩
  · simp [executeGitCommand, h1]
  · simp [executeGitCommand, h1, h2]
  · simp [executeGitCommand, h1, h2]

/-- Witness for claim C8: a destination with only a .git marker skips, one
with no markers clones and reports the clone outcome. -/
theorem claim_c8_witness :
    executeGitCommand (fun p => p = "dst/.git") (some "clone failed")
      { url := "git@example.com:a/b.git", targetPath := "dst",
        args := ["clone", "--quiet", "git@example.com:a/b.git", "dst"] } =
      (true, none) ∧
    executeGitCommand (fun _ => false) (some "clone failed")
      { url := "git@example.com:a/b.git", targetPath := "dst",
        args := ["clone", "--quiet", "git@example.com:a/b.git", "dst"] } =
      (false, some "clone failed") :=
  ⟨(claim_c8_skip_check (fun p => p = "dst/.git") _).2.1 (by decide) (by decide)
      (some "clone failed"),
   (claim_c8_skip_check (fun _ => false) _).2.2 (by decide) (by decide)
      (some "clone failed")⟩

/-- Claim C9: import-path validation succeeds iff the substring before the
first slash contains a literal dot; the zero-segment "no package to
retrieve" branch is unreachable (splitting any string yields at least one
element), so every rejection reports the domain-heuristic error. -/
theorem claim_c9_validate_domain_dot :
    (∀ ip : String, validateImportPath ip = none ↔
      (ip.data.takeWhile (fun c => c ≠ '/')).contains '.' = true) ∧
    (∀ ip : String, stringsSplitSlash ip ≠ []) ∧
    (∀ (ip e : String), validateImportPath ip = some e →
      e = "first part of package path should be a domain name, got " ++ ip) := by
  refine ⟨?_, stringsSplitSlash_ne_nil, ?_⟩
  · intro ip
    unfold validateImportPath
    cases hsp : stringsSplitSlash ip with
    | nil => exact absurd hsp (stringsSplitSlash_ne_nil ip)
    | cons domain l =>
      have hd := split_head_eq_takeWhile ip domain l hsp
      rw [← hd]
      dsimp only
      cases hc : domain.data.contains '.' <;> simp
  · intro ip e h
    unfold validateImportPath at h
    cases hsp : stringsSplitSlash ip with
    | nil => exact absurd hsp (stringsSplitSlash_ne_nil ip)
    | cons domain l =>
      rw [hsp] at h
      dsimp only at h
      cases hc : domain.data.contains '.' with
      | false =>
        rw [hc] at h
        simp at h
        exact h.symm
      | true =>
        rw [hc] at h
        simp at h

/-- Witness for claim C9: a dotted domain passes, a dotless one is rejected
with the domain-heuristic message. -/
theorem claim_c9_witness :
    validateImportPath "github.com/x" = none ∧
    ("first part of package path should be a domain name, got foo/bar" =
      "first part of package path should be a domain name, got " ++ "foo/bar") :=
  ⟨(claim_c9_validate_domain_dot.1 "github.com/x").mpr (by decide),
   claim_c9_validate_domain_dot.2.2 "foo/bar"
     "first part of package path should be a domain name, got foo/bar" (by rfl)⟩

theorem string_ne_empty_of_data_ne {s : String} (h : s.data ≠ []) : s ≠ "" :=
  fun he => h (by rw [he])

theorem append_ne_empty_left {a : String} (b : String) (ha : a.data ≠ []) :
    a ++ b ≠ "" := by
  apply string_ne_empty_of_data_ne
  rw [String.data_append]
  intro h
  exact ha (List.append_eq_nil.mp h).1

theorem append_ne_empty_right (a : String) {b : String} (hb : b.data ≠ []) :
    a ++ b ≠ "" := by
  apply string_ne_empty_of_data_ne
  rw [String.data_append]
  intro h
  exact hb (List.append_eq_nil.mp h).2

/-- The heuristic layer never produces the empty URL: the zero-segment
branch of the final split is unreachable and every other branch emits a
URL built around non-empty literal text. -/
theorem heuristicRepoURL_ne_empty (ip : String) (https : Bool) :
    heuristicRepoURL ip https ≠ "" := by
  unfold heuristicRepoURL
  cases goCutPre ip "golang.org/x/" with
  | some repo => exact append_ne_empty_left _ (by decide)
  | none =>
  cases goCutPre ip "google.golang.org/" with
  | some repo => exact append_ne_empty_left _ (by decide)
  | none =>
  cases goCutPre ip "go.opentelemetry.io/" with
  | some repo => exact append_ne_empty_left _ (by decide)
  | none =>
  cases hsp : stringsSplitSlash ip with
  | nil => exact absurd hsp (stringsSplitSlash_ne_nil ip)
  | cons domain rest =>
    dsimp only
    split_ifs <;> exact append_ne_empty_right _ (by decide)

/-- The resolver never produces the empty URL as long as the discovery
outcome, when it is a found directive, carries a non-empty repository URL. -/
theorem resolverURL_ne_empty (ip : String) (https : Bool) (disc : Discovery)
    (hdisc : ∀ v u, disc = .found v u → u ≠ "") :
    getRepositoryURLWithClient ip https disc ≠ "" := by
  unfold getRepositoryURLWithClient
  cases shouldUseDiscovery ip with
  | false => exact heuristicRepoURL_ne_empty ip https
  | true =>
    cases disc with
    | failed m => exact heuristicRepoURL_ne_empty ip https
    | found vcs u =>
      dsimp only
      by_cases hv : (vcs == "git") = true
      · rw [if_pos hv]
        exact hdisc vcs u rfl
      · rw [if_neg hv]
        exact heuristicRepoURL_ne_empty ip https

theorem mem_fieldsAux_ne_nil (l : List Char) :
    ∀ (acc : List Char) (s : String), s ∈ fieldsAux l acc → s.data ≠ [] := by
  induction l with
  | nil =>
    intro acc s hs
    cases acc with
    | nil => simp [fieldsAux] at hs
    | cons a as =>
      simp [fieldsAux] at hs
      rw [hs]
      simp
  | cons c cs ih =>
    intro acc s hs
    by_cases hw : c.isWhitespace
    · cases acc with
      | nil =>
        rw [show fieldsAux (c :: cs) [] = fieldsAux cs [] from by
          simp [fieldsAux, hw]] at hs
        exact ih [] s hs
      | cons a as =>
        rw [show fieldsAux (c :: cs) (a :: as) =
            String.mk (a :: as).reverse :: fieldsAux cs [] from by
          simp [fieldsAux, hw]] at hs
        rcases List.mem_cons.mp hs with h | h
        · rw [h]; simp
        · exact ih [] s h
    · rw [show fieldsAux (c :: cs) acc = fieldsAux cs (c :: acc) from by
        simp [fieldsAux, hw]] at hs
      exact ih (c :: acc) s hs

/-- Every field produced by the whitespace splitter is non-empty. -/
theorem stringsFields_mem_ne_empty {s x : String} (hx : x ∈ stringsFields s) :
    x ≠ "" :=
  string_ne_empty_of_data_ne (mem_fieldsAux_ne_nil s.data [] x hx)

/-- A directive extracted from a token carries a non-empty repository URL. -/
theorem directive_url_ne_empty (ip : String) (t : HtmlToken) (v u : String)
    (h : directiveOfToken ip t = some (v, u)) : u ≠ "" := by
  cases t with
  | otherToken => simp [directiveOfToken] at h
  | startTag tagData attrs =>
    by_cases hm : tagData = "meta"
    · by_cases hn : (metaNameContent attrs).1 = "go-import"
      · rcases hf : stringsFields (metaNameContent attrs).2 with
          _ | ⟨p, _ | ⟨v1, _ | ⟨u1, _ | ⟨w, ws⟩⟩⟩⟩ <;>
          simp [directiveOfToken, hm, hn, hf] at h
        refine stringsFields_mem_ne_empty (s := (metaNameContent attrs).2) ?_
        rw [hf, ← h.2.2]
        simp
      · simp [directiveOfToken, hm, hn] at h
    · simp [directiveOfToken, hm] at h
  | selfClosingTag tagData attrs =>
    by_cases hm : tagData = "meta"
    · by_cases hn : (metaNameContent attrs).1 = "go-import"
      · rcases hf : stringsFields (metaNameContent attrs).2 with
          _ | ⟨p, _ | ⟨v1, _ | ⟨u1, _ | ⟨w, ws⟩⟩⟩⟩ <;>
          simp [directiveOfToken, hm, hn, hf] at h
        refine stringsFields_mem_ne_empty (s := (metaNameContent attrs).2) ?_
        rw [hf, ← h.2.2]
        simp
      · simp [directiveOfToken, hm, hn] at h
    · simp [directiveOfToken, hm] at h

/-- Any successful parse of the go-import meta tag returns a non-empty
repository URL. -/
theorem parseGoImportMeta_url_ne_empty (toks : List HtmlToken)
    (termErr : Option String) (ip v u : String)
    (h : parseGoImportMeta toks termErr ip = .ok (v, u)) : u ≠ "" := by
  induction toks with
  | nil => cases termErr <;> simp [parseGoImportMeta] at h
  | cons t rest ih =>
    rw [parseGoImportMeta_cons] at h
    cases hd : directiveOfToken ip t with
    | some d =>
      rw [hd] at h
      simp only [] at h
      have hdu : d = (v, u) := Except.ok.inj h
      exact directive_url_ne_empty ip t v u (by rw [hd, hdu])
    | none =>
      rw [hd] at h
      exact ih h

theorem getElem?_append_left_of_lt {a : String} (b : String) {i : Nat} {c : Char}
    (h : a.data[i]? = some c) : (a ++ b).data[i]? = some c := by
  rw [String.data_append]
  have hi : i < a.data.length := (List.getElem?_eq_some.mp h).1
  rw [List.getElem?_append, if_pos hi]
  exact h

theorem ne_of_getElem?_ne {s t : String} {i : Nat} {c d : Char}
    (hc : s.data[i]? = some c) (hd : t.data[i]? = some d) (hne : c ≠ d) :
    s ≠ t := by
  intro h
  rw [h, hd] at hc
  exact hne (Option.some.inj hc.symm)

theorem goFilepathJoin_with_src_ne_empty (a c : String) :
    goFilepathJoin [a, "src", c] ≠ "" := by
  unfold goFilepathJoin
  by_cases ha : a = ""
  · subst ha
    by_cases hc : c = ""
    · subst hc
      decide
    · simp only [show ([("" : String), "src", c].filter (fun e => e ≠ "")) =
        ["src", c] from by simp [hc], stringsJoinSlash]
      exact append_ne_empty_left _ (by decide)
  · by_cases hc : c = ""
    · subst hc
      simp only [show ([a, ("src" : String), ""].filter (fun e => e ≠ "")) =
        [a, "src"] from by simp [ha], stringsJoinSlash]
      exact append_ne_empty_right _ (by decide)
    · simp only [show ([a, ("src" : String), c].filter (fun e => e ≠ "")) =
        [a, "src", c] from by simp [ha, hc], stringsJoinSlash]
      exact append_ne_empty_left _ (by rw [String.data_append]; simp)

theorem ne_empty_of_startsWith_dot {s : String}
    (h : goStartsWith s "." = true) : s ≠ "" := by
  intro he
  subst he
  exact absurd h (by decide)

theorem finishGitCommand_ok {gitURL : String} (importPath checkoutPath : String)
    (h : gitURL ≠ "") :
    finishGitCommand importPath gitURL checkoutPath =
      .ok { url := gitURL, targetPath := checkoutPath,
            args := ["clone", "--quiet", gitURL, checkoutPath] } := by
  unfold finishGitCommand
  rw [if_neg h]

/-- Claim C10: URL resolution is total and never empty — for every import
path, transport flag, and discovery outcome (every discovered repository URL
being non-empty, which the parser guarantees), the resolver returns a
non-empty URL; consequently buildGitCommand never takes its
"could not determine git URL" branch, and every constructed plan has a
non-empty URL and a non-empty destination path. -/
theorem claim_c10_resolution_total :
    (∀ (toks : List HtmlToken) (termErr : Option String) (ip v u : String),
      parseGoImportMeta toks termErr ip = .ok (v, u) → u ≠ "") ∧
    (∀ (ip : String) (https : Bool) (disc : Discovery),
      (∀ v u, disc = .found v u → u ≠ "") →
      getRepositoryURLWithClient ip https disc ≠ "") ∧
    (∀ (config : Config) (https : Bool) (disc : Discovery)
        (relRes : Except String String),
      (∀ v u, disc = .found v u → u ≠ "") →
      buildGitCommand config https disc relRes ≠
        .error ("could not determine git URL for " ++ config.importPath) ∧
      (∀ cmd, buildGitCommand config https disc relRes = .ok cmd →
        cmd.url ≠ "" ∧ cmd.targetPath ≠ "")) := by
  refine ⟨parseGoImportMeta_url_ne_empty, resolverURL_ne_empty, ?_⟩
  intro config https disc relRes hdisc
  unfold buildGitCommand
  by_cases hdot : goStartsWith config.importPath "." = true
  · rw [if_pos hdot]
    by_cases hwd : config.workingDir = ""
    · rw [if_pos hwd]
      constructor
      · intro h
        have hmsg := Except.error.inj h
        exact ne_of_getElem?_ne (i := 0)
          (show ("working directory required for relative paths" :
            String).data[0]? = some 'w' from by decide)
          (getElem?_append_left_of_lt _
            (show ("could not determine git URL for " : String).data[0]? =
              some 'c' from by decide))
          (by decide) hmsg
      · intro cmd hcmd
        exact absurd hcmd (by simp)
    · rw [if_neg hwd]
      cases relRes with
      | error e =>
        constructor
        · intro h
          have hmsg := Except.error.inj h
          exact ne_of_getElem?_ne (i := 10)
            (getElem?_append_left_of_lt _
              (show ("could not construct relationship between gopath and wd: " :
                String).data[10]? = some 'c' from by decide))
            (getElem?_append_left_of_lt _
              (show ("could not determine git URL for " : String).data[10]? =
                some 'd' from by decide))
            (by decide) hmsg
        · intro cmd hcmd
          exact absurd hcmd (by simp)
      | ok rel =>
        dsimp only
        by_cases hsrc : goStartsWith rel "src/" = false
        · rw [if_pos hsrc]
          constructor
          · intro h
            have hmsg := Except.error.inj h
            exact ne_of_getElem?_ne (i := 0)
              (getElem?_append_left_of_lt _
                (show ("working directory should be contained inside $GOPATH/src, got " :
                  String).data[0]? = some 'w' from by decide))
              (getElem?_append_left_of_lt _
                (show ("could not determine git URL for " : String).data[0]? =
                  some 'c' from by decide))
              (by decide) hmsg
          · intro cmd hcmd
            exact absurd hcmd (by simp)
        · rw [if_neg hsrc]
          have hurl := resolverURL_ne_empty
            (goFilepathJoin [goTrimPre rel "src/", config.importPath]) https disc hdisc
          rw [finishGitCommand_ok _ _ hurl]
          constructor
          · simp
          · intro cmd hcmd
            rw [← Except.ok.inj hcmd]
            exact ⟨hurl, ne_empty_of_startsWith_dot hdot⟩
  · rw [if_neg hdot]
    have hurl := resolverURL_ne_empty config.importPath https disc hdisc
    rw [finishGitCommand_ok _ _ hurl]
    constructor
    · simp
    · intro cmd hcmd
      rw [← Except.ok.inj hcmd]
      exact ⟨hurl, goFilepathJoin_with_src_ne_empty _ _⟩

/-- Witness for claim C10: the resolver on the empty import path, and a
concrete clone plan for example.com/a. -/
theorem claim_c10_witness :
    getRepositoryURLWithClient "" false (.failed "x") ≠ "" ∧
    buildGitCommand
        { gopath := "/go", workingDir := "", importPath := "example.com/a",
          hasEllipsis := false } false (.failed "x") (.ok "") ≠
      .error ("could not determine git URL for " ++ "example.com/a") :=
  ⟨claim_c10_resolution_total.2.1 "" false (.failed "x")
      (fun _ _ h => Discovery.noConfusion h),
   (claim_c10_resolution_total.2.2
      { gopath := "/go", workingDir := "", importPath := "example.com/a",
        hasEllipsis := false } false (.failed "x") (.ok "")
      (fun _ _ h => Discovery.noConfusion h)).1⟩

/-- Witness for claim C3 at example.com/foo/bar and bare example.com. -/
theorem claim_c3_witness :
    getRepositoryURLWithClient ("example.com" ++ "/" ++ "foo/bar") false
        (.failed "x") = "git@" ++ "example.com" ++ ":" ++ "foo/bar" ++ ".git" ∧
    getRepositoryURLWithClient "example.com" false (.failed "x") =
      "git@" ++ "example.com" ++ ".git" := by
  refine ⟨(claim_c3_unknown_domain_verbatim.1 "example.com" "foo/bar"
      (.failed "x") (by decide) (by decide) (by decide) (by decide) (by decide)
      (fun url h => Discovery.noConfusion h)).1,
    (claim_c3_unknown_domain_verbatim.2 "example.com" (.failed "x") (by decide)
      (by decide) (by decide) (by decide) (by decide)
      (fun url h => Discovery.noConfusion h)).1⟩

/-- Claim C2: for every import path under one of the three vendor-specific
prefixes (golang.org/x/, google.golang.org/, go.opentelemetry.io/), only the
first path segment after the prefix survives in the output URL, formatted
into the fixed template of that vendor, regardless of how many deeper subpackage
segments were supplied and regardless of the transport flag (discovery is
never consulted for these paths); in particular resolving
golang.org/x/crypto/ssh without HTTPS yields https://go.googlesource.com/crypto. -/
theorem claim_c2_vendor_first_segment :
    (∀ (s : String) (https : Bool) (disc : Discovery),
      getRepositoryURLWithClient ("golang.org/x/" ++ s) https disc =
        "https://go.googlesource.com/" ++ firstSegment s) ∧
    (∀ (s : String) (https : Bool) (disc : Discovery),
      getRepositoryURLWithClient ("google.golang.org/" ++ s) https disc =
        "https://github.com/googleapis/" ++ firstSegment s) ∧
    (∀ (s : String) (https : Bool) (disc : Discovery),
      getRepositoryURLWithClient ("go.opentelemetry.io/" ++ s) https disc =
        "https://github.com/open-telemetry/" ++ firstSegment s) ∧
    (∀ disc : Discovery,
      getRepositoryURLWithClient "golang.org/x/crypto/ssh" false disc =
        "https://go.googlesource.com/crypto") := by
  refine ⟨?_, ?_, ?_, ?_⟩
  · intro s https disc
    rw [resolver_eq_heuristic_of_skip _ _ _ (susd_golangorg s)]
    exact heuristic_golangorg s https
  · intro s https disc
    rw [resolver_eq_heuristic_of_skip _ _ _ (susd_googlegolangorg s)]
    exact heuristic_googlegolangorg s https
  · intro s https disc
    rw [resolver_eq_heuristic_of_skip _ _ _ (susd_opentelemetry s)]
    exact heuristic_opentelemetry s https
  · intro disc
    rw [show ("golang.org/x/crypto/ssh" : String) = "golang.org/x/" ++ "crypto/ssh"
      from by decide]
    rw [resolver_eq_heuristic_of_skip _ _ _ (susd_golangorg "crypto/ssh")]
    rfl
